import Mathlib

/-!
Verification of the Fresh-Juice-Store server (`server.js`) against its
natural-language specification.  The in-memory store, the GraphQL resolvers
and the REST handlers are shallowly embedded as pure Lean functions over
explicit store values; prices are modelled as rationals, JS `undefined`
as `Option.none`, and thrown errors / HTTP error responses as explicit
constructors.
-/

namespace FreshJuice

/-! ### String helpers: JS `String.prototype.includes` -/

/-- Models the test that the character list `q` is a prefix of `s`. -/
def startsWithList : List Char → List Char → Bool
  | [], _ => true
  | _ :: _, [] => false
  | c :: q, d :: s => c == d && startsWithList q s

/-- Models the test that character list `q` occurs contiguously inside `s`. -/
def occursIn (q : List Char) : List Char → Bool
  | [] => q.isEmpty
  | c :: s => startsWithList q (c :: s) || occursIn q s

/-- Models JS `s.includes(q)`: `q` is a substring of `s`. -/
def strIncludes (s q : String) : Bool :=
  occursIn q.toList s.toList

/-! ### Data model (server.js lines 31-43)

A JS object field that may be absent (`undefined`) is an `Option`.
`inStock` is a plain `Bool` because every code path that stores a juice
either receives it or defaults it to `true`. -/

structure Juice where
  id : String
  name : String
  description : Option String
  price : ℚ
  category : Option String
  inStock : Bool
  imageUrl : Option String
deriving Repr, DecidableEq

structure Order where
  id : String
  customerName : String
  items : List String
  total : ℚ
  status : String
  createdAt : String
deriving Repr, DecidableEq

/-- Seed juice 1 (server.js line 32). -/
def juice1 : Juice :=
  { id := "1", name := "Orange Juice", description := some "Freshly squeezed oranges",
    price := 4.99, category := some "Fruit", inStock := true,
    imageUrl := some "./images/first.jpg" }

/-- Seed juice 2 (server.js line 33). -/
def juice2 : Juice :=
  { id := "2", name := "Green Detox", description := some "Spinach, kale, and apple blend",
    price := 5.99, category := some "Vegetable", inStock := true,
    imageUrl := some "./images/second.jpg" }

/-- Seed juice 3 (server.js line 34). -/
def juice3 : Juice :=
  { id := "3", name := "Berry Blast", description := some "Mixed berries with yogurt",
    price := 6.99, category := some "Smoothie", inStock := true,
    imageUrl := some "./images/third.jpg" }

/-- Seed juice 4 (server.js line 35). -/
def juice4 : Juice :=
  { id := "4", name := "Carrot Boost", description := some "Fresh carrots with ginger",
    price := 4.49, category := some "Vegetable", inStock := false,
    imageUrl := some "./images/look.jpg" }

/-- Seed juice 5 (server.js line 36). -/
def juice5 : Juice :=
  { id := "5", name := "Pineapple Paradise", description := some "Tropical pineapple with coconut",
    price := 7.99, category := some "Fruit", inStock := true,
    imageUrl := some "./images/first.jpg" }

/-- The seeded juice store (server.js lines 31-37). -/
def seedJuices : List Juice := [juice1, juice2, juice3, juice4, juice5]

/-- Seed order 1 (server.js line 41). -/
def order1 : Order :=
  { id := "1", customerName := "Pavan", items := ["1", "2"], total := 10.98,
    status := "completed", createdAt := "2024-01-15" }

/-- Seed order 2 (server.js line 42). -/
def order2 : Order :=
  { id := "2", customerName := "Sunny", items := ["3"], total := 6.99,
    status := "pending", createdAt := "2024-01-16" }

/-- The seeded order store (server.js lines 40-43). -/
def seedOrders : List Order := [order1, order2]

/-- The ids of the juices currently in the store, in store order. -/
def idsOf (s : List Juice) : List String := s.map (fun j => j.id)

/-! ### Generic find-and-mutate helpers

`server.js` repeatedly does `findIndex` / `find` on the array followed by
an in-place mutation (`splice`, field assignment).  These helpers express
that pattern as explicit state passing: they locate the first element
satisfying `p` and either replace it by `f` applied to it, or remove it;
`none` models the `-1` / `undefined` miss. -/

def findAndUpdate (p : α → Bool) (f : α → α) : List α → Option (α × List α)
  | [] => none
  | a :: rest =>
    if p a then
      some (f a, f a :: rest)
    else
      (findAndUpdate p f rest).map (fun r => (r.1, a :: r.2))

def findAndRemove (p : α → Bool) : List α → Option (List α)
  | [] => none
  | a :: rest =>
    if p a then some rest
    else (findAndRemove p rest).map (fun l => a :: l)

/-! ### Query resolvers (server.js lines 106-125) -/

/-- `Query.juice` and the lookup `juices.find(j => j.id === id)` used
throughout (server.js line 108 and elsewhere). -/
def getJuice (juices : List Juice) (id : String) : Option Juice :=
  juices.find? (fun j => j.id == id)

/-- `Query.order` / `orders.find(o => o.id === id)` (server.js line 111). -/
def getOrder (orders : List Order) (id : String) : Option Order :=
  orders.find? (fun o => o.id == id)

/-- One juice's match test inside `searchJuices` (server.js lines 114-118).
JS evaluates `j.name.toLowerCase().includes(q) || j.description... ||
j.category...` left to right; accessing `toLowerCase` on an absent field
throws, which is modelled by `none`. -/
def juiceMatchesJS (lcq : String) (j : Juice) : Option Bool :=
  if strIncludes j.name.toLower lcq then some true
  else
    match j.description with
    | none => none
    | some d =>
      if strIncludes d.toLower lcq then some true
      else
        match j.category with
        | none => none
        | some c => some (strIncludes c.toLower lcq)

/-- JS `Array.prototype.filter` with a predicate that can throw. -/
def filterJS (p : Juice → Option Bool) : List Juice → Option (List Juice)
  | [] => some []
  | j :: rest =>
    match p j with
    | none => none
    | some b => (filterJS p rest).map (fun r => if b then j :: r else r)

/-- `Query.searchJuices` (server.js lines 112-119): lowercases the query
once and filters the store. -/
def searchJuices (juices : List Juice) (query : String) : Option (List Juice) :=
  filterJS (juiceMatchesJS query.toLower) juices

/-- The `Order.juices` field resolver (server.js lines 121-125):
`parent.items.map(itemId => juices.find(j => j.id === itemId)).filter(Boolean)`. -/
def resolveOrderJuices (juices : List Juice) (order : Order) : List Juice :=
  (order.items.map (fun itemId => getJuice juices itemId)).filterMap id

/-! ### GraphQL mutations (server.js lines 126-173) -/

/-- GraphQL `JuiceInput` (schema lines 76-83): `name` and `price` are
required, the rest may be omitted. -/
structure JuiceInput where
  name : String
  description : Option String
  price : ℚ
  category : Option String
  inStock : Option Bool
  imageUrl : Option String
deriving Repr, DecidableEq

/-- GraphQL `OrderInput` (schema lines 85-88). -/
structure OrderInput where
  customerName : String
  items : List String
deriving Repr, DecidableEq

/-- `Mutation.createJuice` (server.js lines 127-135).  The object literal
`{ id: (juices.length+1).toString(), ...input, inStock: ... }` copies
exactly the keys present in `input`: omitted optional fields stay absent
(only `inStock` is defaulted, to `true`).  Returns the new record and the
store after `juices.push(newJuice)`. -/
def gqlCreateJuice (juices : List Juice) (input : JuiceInput) : Juice × List Juice :=
  let newJuice : Juice :=
    { id := Nat.repr (juices.length + 1)
      name := input.name
      description := input.description
      price := input.price
      category := input.category
      inStock := input.inStock.getD true
      imageUrl := input.imageUrl }
  (newJuice, juices ++ [newJuice])

/-- The spread `{ ...juices[juiceIndex], ...input }` of
`Mutation.updateJuice` (server.js line 140): keys present in `input`
overwrite, absent keys are preserved, `id` is never in `input`. -/
def gqlMergeJuice (j : Juice) (input : JuiceInput) : Juice :=
  { id := j.id
    name := input.name
    description := match input.description with | some d => some d | none => j.description
    price := input.price
    category := match input.category with | some c => some c | none => j.category
    inStock := match input.inStock with | some b => b | none => j.inStock
    imageUrl := match input.imageUrl with | some u => some u | none => j.imageUrl }

/-- `Mutation.updateJuice` (server.js lines 136-142): `findIndex` then
in-place replacement; `none` models the thrown `Juice not found`. -/
def gqlUpdateJuice (juices : List Juice) (id : String) (input : JuiceInput) :
    Option (Juice × List Juice) :=
  findAndUpdate (fun j => j.id == id) (fun j => gqlMergeJuice j input) juices

/-- `Mutation.deleteJuice` (server.js lines 143-148): `findIndex` then
`splice(juiceIndex, 1)`; `none` models the thrown `Juice not found`,
`some` the store after removal (the resolver then returns `true`). -/
def deleteJuice (juices : List Juice) (id : String) : Option (List Juice) :=
  findAndRemove (fun j => j.id == id) juices

/-- The `reduce` computing an order total (server.js lines 151-154 and
249-252): each item id contributes the current price of the juice found
under it, or `0` when the lookup misses. -/
def orderTotal (juices : List Juice) (items : List String) : ℚ :=
  items.foldl
    (fun sum itemId =>
      sum + (match getJuice juices itemId with | some j => j.price | none => 0))
    0

/-- `Mutation.createOrder` (server.js lines 150-164).  `now` stands for
`new Date().toISOString()`. -/
def gqlCreateOrder (juices : List Juice) (orders : List Order) (input : OrderInput)
    (now : String) : Order × List Order :=
  let newOrder : Order :=
    { id := Nat.repr (orders.length + 1)
      customerName := input.customerName
      items := input.items
      total := orderTotal juices input.items
      status := "pending"
      createdAt := now }
  (newOrder, orders ++ [newOrder])

/-- `Mutation.updateOrderStatus` (server.js lines 166-172): `find` then
`order.status = status` through the shared reference; `none` models the
thrown `Order not found`. -/
def updateOrderStatus (orders : List Order) (id status : String) :
    Option (Order × List Order) :=
  findAndUpdate (fun o => o.id == id) (fun o => { o with status := status }) orders

/-! ### REST handlers (server.js lines 188-264) -/

/-- A REST response: HTTP status plus either an error message body or a
JSON payload. -/
inductive Resp (α : Type) where
  | err (status : Nat) (message : String)
  | ok (status : Nat) (payload : α)
deriving Repr, DecidableEq

/-- REST request body for juice create/update: every field may be absent. -/
structure JuiceBody where
  name : Option String
  description : Option String
  price : Option ℚ
  category : Option String
  inStock : Option Bool
  imageUrl : Option String
deriving Repr, DecidableEq

/-- REST request body for order create. -/
structure OrderBody where
  customerName : Option String
  items : Option (List String)
deriving Repr, DecidableEq

/-- JS truthiness of a string-or-undefined value: absent and `""` are
falsy, every other string truthy. -/
def truthyStr : Option String → Bool
  | none => false
  | some s => s != ""

/-- JS truthiness of a number-or-undefined value: absent and `0` are
falsy (NaN is outside the model). -/
def truthyNum : Option ℚ → Bool
  | none => false
  | some q => q != 0

/-- JS `v || dflt` for a string-or-undefined `v`. -/
def orStr (v : Option String) (dflt : String) : String :=
  if truthyStr v then v.getD "" else dflt

/-- `POST /api/juices` (server.js lines 198-213): rejects with 400 when
`name` or `price` is falsy, otherwise builds the record with the
documented defaults, appends it and answers 201. -/
def restPostJuices (juices : List Juice) (body : JuiceBody) : Resp Juice × List Juice :=
  if !truthyStr body.name || !truthyNum body.price then
    (Resp.err 400 "Name and price are required", juices)
  else
    let newJuice : Juice :=
      { id := Nat.repr (juices.length + 1)
        name := body.name.getD ""
        description := some (orStr body.description "")
        price := body.price.getD 0
        category := some (orStr body.category "Fruit")
        inStock := body.inStock.getD true
        imageUrl := some (orStr body.imageUrl "./images/first.jpg") }
    (Resp.ok 201 newJuice, juices ++ [newJuice])

/-- The six field assignments of `PUT /api/juices/:id` (server.js lines
220-225): each field keeps its old value unless the incoming value is
truthy (`inStock` instead tests `!== undefined`). -/
def putMergeJuice (j : Juice) (body : JuiceBody) : Juice :=
  { id := j.id
    name := if truthyStr body.name then body.name.getD "" else j.name
    description := if truthyStr body.description then body.description else j.description
    price := if truthyNum body.price then body.price.getD 0 else j.price
    category := if truthyStr body.category then body.category else j.category
    inStock := body.inStock.getD j.inStock
    imageUrl := if truthyStr body.imageUrl then body.imageUrl else j.imageUrl }

/-- `PUT /api/juices/:id` (server.js lines 215-228): 404 when the id is
absent, otherwise in-place partial update and 200 with the record. -/
def restPutJuice (juices : List Juice) (id : String) (body : JuiceBody) :
    Resp Juice × List Juice :=
  match findAndUpdate (fun j => j.id == id) (fun j => putMergeJuice j body) juices with
  | none => (Resp.err 404 "Juice not found", juices)
  | some (j2, juices2) => (Resp.ok 200 j2, juices2)

/-- `DELETE /api/juices/:id` (server.js lines 230-236): same
`findIndex`/`splice` as the GraphQL resolver, with REST status codes. -/
def restDeleteJuice (juices : List Juice) (id : String) : Resp String × List Juice :=
  match deleteJuice juices id with
  | none => (Resp.err 404 "Juice not found", juices)
  | some juices2 => (Resp.ok 200 "Juice deleted successfully", juices2)

/-- `POST /api/orders` (server.js lines 243-264): 400 when `customerName`
is falsy or `items` is not an array (absence models the non-array case);
otherwise creates the order exactly like the GraphQL resolver and
answers 201. -/
def restPostOrders (juices : List Juice) (orders : List Order) (body : OrderBody)
    (now : String) : Resp Order × List Order :=
  if !truthyStr body.customerName || body.items.isNone then
    (Resp.err 400 "Customer name and items array are required", orders)
  else
    let items := body.items.getD []
    let newOrder : Order :=
      { id := Nat.repr (orders.length + 1)
        customerName := body.customerName.getD ""
        items := items
        total := orderTotal juices items
        status := "pending"
        createdAt := now }
    (Resp.ok 201 newOrder, orders ++ [newOrder])

/-! ### Characterizations of the find-and-mutate helpers -/

theorem findAndUpdate_eq_none_iff (p : α → Bool) (f : α → α) :
    ∀ l : List α, findAndUpdate p f l = none ↔ ∀ a ∈ l, p a = false := by
  intro l
  induction l with
  | nil => simp [findAndUpdate]
  | cons a rest ih =>
    by_cases hp : p a
    · simp [findAndUpdate, hp]
    · simp only [findAndUpdate, hp, if_neg, Bool.false_eq_true, not_false_eq_true,
        Option.map_eq_none', List.mem_cons]
      constructor
      · intro h b hb
        rcases hb with rfl | hb
        · simpa using hp
        · exact (ih.mp h) b hb
      · intro h
        exact ih.mpr (fun b hb => h b (Or.inr hb))

theorem findAndUpdate_eq_some (p : α → Bool) (f : α → α) :
    ∀ (l : List α) (a2 : α) (l2 : List α), findAndUpdate p f l = some (a2, l2) →
      ∃ pre x suf, l = pre ++ x :: suf ∧ (∀ y ∈ pre, p y = false) ∧ p x = true ∧
        a2 = f x ∧ l2 = pre ++ f x :: suf := by
  intro l
  induction l with
  | nil => intro a2 l2 h; simp [findAndUpdate] at h
  | cons a rest ih =>
    intro a2 l2 h
    by_cases hp : p a
    · refine ⟨[], a, rest, rfl, by simp, hp, ?_, ?_⟩ <;>
        · simp [findAndUpdate, hp] at h
          simp [h.1.symm, h.2.symm]
    · simp only [findAndUpdate, hp, if_neg, Bool.false_eq_true, not_false_eq_true,
        Option.map_eq_some'] at h
      obtain ⟨⟨b2, m2⟩, hrec, heq⟩ := h
      obtain ⟨pre, x, suf, hl, hpre, hx, ha2, hl2⟩ := ih b2 m2 hrec
      refine ⟨a :: pre, x, suf, by simp [hl], ?_, hx, ?_, ?_⟩
      · intro y hy
        rcases List.mem_cons.mp hy with rfl | hy
        · simpa using hp
        · exact hpre y hy
      · cases heq; simpa using ha2
      · cases heq; simp [hl2]

theorem findAndUpdate_isSome (p : α → Bool) (f : α → α) :
    ∀ (l : List α) (a : α), a ∈ l → p a = true → (findAndUpdate p f l).isSome := by
  intro l
  induction l with
  | nil => intro a ha; simp at ha
  | cons b rest ih =>
    intro a ha hpa
    rcases List.mem_cons.mp ha with rfl | ha
    · simp [findAndUpdate, hpa]
    · by_cases hpb : p b
      · simp [findAndUpdate, hpb]
      · have := ih a ha hpa
        simp only [findAndUpdate, hpb, if_neg, Bool.false_eq_true, not_false_eq_true,
          Option.isSome_map']
        exact this

theorem findAndRemove_eq_none_iff (p : α → Bool) :
    ∀ l : List α, findAndRemove p l = none ↔ ∀ a ∈ l, p a = false := by
  intro l
  induction l with
  | nil => simp [findAndRemove]
  | cons a rest ih =>
    by_cases hp : p a
    · simp [findAndRemove, hp]
    · simp only [findAndRemove, hp, if_neg, Bool.false_eq_true, not_false_eq_true,
        Option.map_eq_none', List.mem_cons]
      constructor
      · intro h b hb
        rcases hb with rfl | hb
        · simpa using hp
        · exact (ih.mp h) b hb
      · intro h
        exact ih.mpr (fun b hb => h b (Or.inr hb))

theorem findAndRemove_eq_some (p : α → Bool) :
    ∀ (l l2 : List α), findAndRemove p l = some l2 →
      ∃ pre x suf, l = pre ++ x :: suf ∧ (∀ y ∈ pre, p y = false) ∧ p x = true ∧
        l2 = pre ++ suf := by
  intro l
  induction l with
  | nil => intro l2 h; simp [findAndRemove] at h
  | cons a rest ih =>
    intro l2 h
    by_cases hp : p a
    · simp [findAndRemove, hp] at h
      exact ⟨[], a, rest, rfl, by simp, hp, by simp [h.symm]⟩
    · simp only [findAndRemove, hp, if_neg, Bool.false_eq_true, not_false_eq_true,
        Option.map_eq_some'] at h
      obtain ⟨m2, hrec, heq⟩ := h
      obtain ⟨pre, x, suf, hl, hpre, hx, hl2⟩ := ih m2 hrec
      refine ⟨a :: pre, x, suf, by simp [hl], ?_, hx, by simp [heq.symm, hl2]⟩
      intro y hy
      rcases List.mem_cons.mp hy with rfl | hy
      · simpa using hp
      · exact hpre y hy

theorem findAndRemove_isSome (p : α → Bool) :
    ∀ (l : List α) (a : α), a ∈ l → p a = true → (findAndRemove p l).isSome := by
  intro l
  induction l with
  | nil => intro a ha; simp at ha
  | cons b rest ih =>
    intro a ha hpa
    rcases List.mem_cons.mp ha with rfl | ha
    · simp [findAndRemove, hpa]
    · by_cases hpb : p b
      · simp [findAndRemove, hpb]
      · have := ih a ha hpa
        simp only [findAndRemove, hpb, if_neg, Bool.false_eq_true, not_false_eq_true,
          Option.isSome_map']
        exact this

/-! ### Injectivity of the decimal id representation

`server.js` turns counts into ids with `.toString()`, embedded as
`Nat.repr`.  The following development proves `Nat.repr` injective, which
the id-freshness invariant needs. -/

/-- Structural decimal digit list of a natural number (most significant
digit first), matching what `Nat.toDigitsCore` produces. -/
def digitsOf (n : Nat) : List Char :=
  if n < 10 then [Nat.digitChar n]
  else digitsOf (n / 10) ++ [Nat.digitChar (n % 10)]
termination_by n
decreasing_by exact Nat.div_lt_self (by omega) (by omega)

theorem digitsOf_lt {n : Nat} (h : n < 10) : digitsOf n = [Nat.digitChar n] := by
  rw [digitsOf]
  simp [h]

theorem digitsOf_ge {n : Nat} (h : ¬ n < 10) :
    digitsOf n = digitsOf (n / 10) ++ [Nat.digitChar (n % 10)] := by
  rw [digitsOf]
  simp [h]

theorem digitsOf_ne_nil (n : Nat) : digitsOf n ≠ [] := by
  by_cases h : n < 10
  · rw [digitsOf_lt h]; simp
  · rw [digitsOf_ge h]; simp

theorem toDigitsCore_eq_digitsOf :
    ∀ (fuel n : Nat) (ds : List Char), n < fuel →
      Nat.toDigitsCore 10 fuel n ds = digitsOf n ++ ds := by
  intro fuel
  induction fuel with
  | zero => intro n ds h; omega
  | succ f ih =>
    intro n ds h
    by_cases h0 : n / 10 = 0
    · have hn : n < 10 := by
        by_contra hc
        have : 1 ≤ n / 10 := (Nat.one_le_div_iff (by omega)).mpr (by omega)
        omega
      simp only [Nat.toDigitsCore, h0, if_pos]
      rw [digitsOf_lt hn, Nat.mod_eq_of_lt hn]
      rfl
    · have hge : ¬ n < 10 := by
        intro hc
        exact h0 (Nat.div_eq_of_lt hc)
      have hlt : n / 10 < f :=
        lt_of_lt_of_le (Nat.div_lt_self (by omega) (by omega)) (by omega)
      simp only [Nat.toDigitsCore, h0, if_neg, ite_false]
      rw [ih (n / 10) (Nat.digitChar (n % 10) :: ds) hlt, digitsOf_ge hge,
        List.append_assoc, List.singleton_append]

theorem digitChar_inj :
    ∀ a b : Nat, a < 10 → b < 10 → Nat.digitChar a = Nat.digitChar b → a = b := by
  intro a b ha hb
  interval_cases a <;> interval_cases b <;> decide

theorem digitsOf_inj (n : Nat) : ∀ m : Nat, digitsOf n = digitsOf m → n = m := by
  induction n using Nat.strong_induction_on with
  | _ n ih =>
    intro m h
    by_cases hn : n < 10 <;> by_cases hm : m < 10
    · rw [digitsOf_lt hn, digitsOf_lt hm] at h
      exact digitChar_inj n m hn hm (by simpa using h)
    · rw [digitsOf_lt hn, digitsOf_ge hm] at h
      have hlen := congrArg List.length h
      simp only [List.length_append, List.length_singleton, List.length_cons,
        List.length_nil] at hlen
      exact absurd (List.eq_nil_of_length_eq_zero (by omega))
        (digitsOf_ne_nil (m / 10))
    · rw [digitsOf_ge hn, digitsOf_lt hm] at h
      have hlen := congrArg List.length h
      simp only [List.length_append, List.length_singleton, List.length_cons,
        List.length_nil] at hlen
      exact absurd (List.eq_nil_of_length_eq_zero (by omega))
        (digitsOf_ne_nil (n / 10))
    · rw [digitsOf_ge hn, digitsOf_ge hm] at h
      obtain ⟨h1, h2⟩ := List.append_inj' h (by simp)
      have hmod : n % 10 = m % 10 :=
        digitChar_inj _ _ (Nat.mod_lt _ (by omega)) (Nat.mod_lt _ (by omega))
          (by simpa using h2)
      have hdiv : n / 10 = m / 10 :=
        ih (n / 10) (Nat.div_lt_self (by omega) (by omega)) (m / 10) h1
      omega

theorem repr_eq_digitsOf (n : Nat) : Nat.repr n = (digitsOf n).asString := by
  show (Nat.toDigits 10 n).asString = _
  unfold Nat.toDigits
  rw [toDigitsCore_eq_digitsOf (n + 1) n [] (Nat.lt_succ_self n), List.append_nil]

theorem natRepr_inj {n m : Nat} (h : Nat.repr n = Nat.repr m) : n = m := by
  rw [repr_eq_digitsOf, repr_eq_digitsOf] at h
  unfold List.asString at h
  injection h with h2
  exact digitsOf_inj n m h2

/-! ### Correctness of the substring test -/

theorem startsWithList_iff (q : List Char) :
    ∀ s : List Char, startsWithList q s = true ↔ ∃ t, q ++ t = s := by
  induction q with
  | nil =>
    intro s
    simp [startsWithList]
  | cons c q ih =>
    intro s
    cases s with
    | nil =>
      simp [startsWithList]
    | cons d s =>
      simp only [startsWithList, Bool.and_eq_true, beq_iff_eq, ih]
      constructor
      · rintro ⟨rfl, t, rfl⟩
        exact ⟨t, rfl⟩
      · rintro ⟨t, h⟩
        injection h with h1 h2
        exact ⟨h1, t, h2⟩

theorem occursIn_iff (q : List Char) :
    ∀ s : List Char, occursIn q s = true ↔ ∃ pre post, pre ++ q ++ post = s := by
  intro s
  induction s with
  | nil =>
    simp only [occursIn, List.isEmpty_iff]
    constructor
    · rintro rfl
      exact ⟨[], [], rfl⟩
    · rintro ⟨pre, post, h⟩
      rcases List.append_eq_nil.mp h with ⟨h1, h2⟩
      exact (List.append_eq_nil.mp h1).2
  | cons d s ih =>
    simp only [occursIn, Bool.or_eq_true, startsWithList_iff, ih]
    constructor
    · rintro (⟨t, ht⟩ | ⟨pre, post, hp⟩)
      · exact ⟨[], t, by simpa using ht⟩
      · exact ⟨d :: pre, post, by simp [hp]⟩
    · rintro ⟨pre, post, h⟩
      cases pre with
      | nil =>
        left
        exact ⟨post, by simpa using h⟩
      | cons e pre =>
        right
        injection h with h1 h2
        exact ⟨pre, post, h2⟩

theorem occursIn_nil_left (s : List Char) : occursIn [] s = true := by
  cases s <;> simp [occursIn, startsWithList]

/-- The substring relation the spec describes: `q` occurs, case
insensitively, inside `s`. -/
def SubstringCI (q s : String) : Prop :=
  ∃ pre post, pre ++ q.toLower.toList ++ post = s.toLower.toList

theorem strIncludes_toLower_iff (s q : String) :
    strIncludes s.toLower q.toLower = true ↔ SubstringCI q s := by
  unfold strIncludes SubstringCI
  exact occursIn_iff _ _

/-! ### Reachable juice-store states

One step is one invocation of any mutating endpoint (GraphQL mutation or
REST handler) that touches the juice store; failed invocations leave the
store unchanged and are included where the handler returns the store. -/

inductive JuiceStep : List Juice → List Juice → Prop where
  | gqlCreate (s : List Juice) (input : JuiceInput) :
      JuiceStep s (gqlCreateJuice s input).2
  | gqlUpdate (s : List Juice) (id : String) (input : JuiceInput) (j2 : Juice)
      (s2 : List Juice) (h : gqlUpdateJuice s id input = some (j2, s2)) :
      JuiceStep s s2
  | gqlDelete (s : List Juice) (id : String) (s2 : List Juice)
      (h : deleteJuice s id = some s2) : JuiceStep s s2
  | restCreate (s : List Juice) (body : JuiceBody) :
      JuiceStep s (restPostJuices s body).2
  | restPut (s : List Juice) (id : String) (body : JuiceBody) :
      JuiceStep s (restPutJuice s id body).2
  | restDelete (s : List Juice) (id : String) :
      JuiceStep s (restDeleteJuice s id).2

/-- A juice-store state the running server can exhibit, starting from the
seed data. -/
def Reachable (s : List Juice) : Prop :=
  Relation.ReflTransGen JuiceStep seedJuices s

/-- Steps that never delete: only the create and update endpoints. -/
inductive JuiceStepND : List Juice → List Juice → Prop where
  | gqlCreate (s : List Juice) (input : JuiceInput) :
      JuiceStepND s (gqlCreateJuice s input).2
  | gqlUpdate (s : List Juice) (id : String) (input : JuiceInput) (j2 : Juice)
      (s2 : List Juice) (h : gqlUpdateJuice s id input = some (j2, s2)) :
      JuiceStepND s s2
  | restCreate (s : List Juice) (body : JuiceBody) :
      JuiceStepND s (restPostJuices s body).2
  | restPut (s : List Juice) (id : String) (body : JuiceBody) :
      JuiceStepND s (restPutJuice s id body).2

/-- A juice-store state reachable from the seed without any delete. -/
def ReachableND (s : List Juice) : Prop :=
  Relation.ReflTransGen JuiceStepND seedJuices s

/-- The ids a store of `n` juices carries when every juice was created by
the sequential length-based scheme and nothing was ever deleted. -/
def canonicalIds (n : Nat) : List String :=
  (List.range n).map (fun k => Nat.repr (k + 1))

/-- The id invariant maintained by all delete-free operations. -/
def IdInv (s : List Juice) : Prop := idsOf s = canonicalIds s.length

theorem canonicalIds_succ (n : Nat) :
    canonicalIds (n + 1) = canonicalIds n ++ [Nat.repr (n + 1)] := by
  simp [canonicalIds, List.range_succ]

theorem IdInv_append {s : List Juice} {j : Juice} (hI : IdInv s)
    (hid : j.id = Nat.repr (s.length + 1)) : IdInv (s ++ [j]) := by
  show idsOf (s ++ [j]) = canonicalIds ((s ++ [j]).length)
  have h1 : idsOf (s ++ [j]) = idsOf s ++ [j.id] := by simp [idsOf]
  have h2 : (s ++ [j]).length = s.length + 1 := by simp
  rw [h1, h2, canonicalIds_succ, hI, hid]

theorem IdInv_gqlCreate {s : List Juice} (input : JuiceInput) (hI : IdInv s) :
    IdInv (gqlCreateJuice s input).2 :=
  IdInv_append hI rfl

theorem IdInv_restPost {s : List Juice} (body : JuiceBody) (hI : IdInv s) :
    IdInv (restPostJuices s body).2 := by
  unfold restPostJuices
  by_cases hc : (!truthyStr body.name || !truthyNum body.price) = true
  · simpa [hc] using hI
  · simp only [hc, if_false, Bool.false_eq_true]
    exact IdInv_append hI rfl

theorem IdInv_gqlUpdate {s s2 : List Juice} {id : String} {input : JuiceInput}
    {j2 : Juice} (h : gqlUpdateJuice s id input = some (j2, s2)) (hI : IdInv s) :
    IdInv s2 := by
  obtain ⟨pre, x, suf, hl, hpre, hx, ha2, hl2⟩ :=
    findAndUpdate_eq_some _ _ s j2 s2 h
  subst hl hl2
  show idsOf _ = canonicalIds _
  have hids : idsOf (pre ++ gqlMergeJuice x input :: suf) = idsOf (pre ++ x :: suf) := by
    simp [idsOf, gqlMergeJuice]
  have hlen : (pre ++ gqlMergeJuice x input :: suf).length = (pre ++ x :: suf).length := by
    simp
  rw [hids, hlen]
  exact hI

theorem IdInv_restPut {s : List Juice} (id : String) (body : JuiceBody)
    (hI : IdInv s) : IdInv (restPutJuice s id body).2 := by
  rcases hfa : findAndUpdate (fun j => j.id == id) (fun j => putMergeJuice j body) s with
    _ | ⟨j2, s2⟩
  · simpa [restPutJuice, hfa] using hI
  · obtain ⟨pre, x, suf, hl, hpre, hx, ha2, hl2⟩ :=
      findAndUpdate_eq_some _ _ s j2 s2 hfa
    subst hl hl2
    show IdInv (restPutJuice _ id body).2
    simp only [restPutJuice, hfa]
    show idsOf _ = canonicalIds _
    have hids : idsOf (pre ++ putMergeJuice x body :: suf) = idsOf (pre ++ x :: suf) := by
      simp [idsOf, putMergeJuice]
    have hlen : (pre ++ putMergeJuice x body :: suf).length = (pre ++ x :: suf).length := by
      simp
    rw [hids, hlen]
    exact hI

theorem reachableND_IdInv : ∀ s, ReachableND s → IdInv s := by
  intro s h
  induction h with
  | refl => exact rfl
  | tail _ hstep ih =>
    cases hstep with
    | gqlCreate input => exact IdInv_gqlCreate input ih
    | gqlUpdate id input j2 s2 h => exact IdInv_gqlUpdate h ih
    | restCreate body => exact IdInv_restPost body ih
    | restPut id body => exact IdInv_restPut id body ih

theorem fresh_of_IdInv {s : List Juice} (hids : IdInv s) :
    ∀ j ∈ s, j.id ≠ Nat.repr (s.length + 1) := by
  intro j hj heq
  have hmem : j.id ∈ idsOf s := List.mem_map_of_mem _ hj
  rw [hids] at hmem
  obtain ⟨k, hk, hkeq⟩ := List.mem_map.mp hmem
  have hkn := natRepr_inj (hkeq.trans heq)
  have hkl := List.mem_range.mp hk
  omega

/-- The store after `deleteJuice "3"` on the seed data. -/
def afterDelete3 : List Juice := [juice1, juice2, juice4, juice5]

/-- C1, counterexample: the claim that the id assigned by `createJuice` is
always fresh fails on the reachable state obtained by deleting juice "3"
from the seed: the next id would be `"5"`, which the store still holds. -/
theorem createJuice_id_collision_after_delete :
    ¬ (∀ s : List Juice, Reachable s →
        ∀ j ∈ s, j.id ≠ Nat.repr (s.length + 1)) := by
  intro hclaim
  have hdel : deleteJuice seedJuices "3" = some afterDelete3 := rfl
  have hstep : JuiceStep seedJuices afterDelete3 :=
    JuiceStep.gqlDelete seedJuices "3" afterDelete3 hdel
  have hmem : juice5 ∈ afterDelete3 :=
    List.mem_cons_of_mem _ (List.mem_cons_of_mem _
      (List.mem_cons_of_mem _ (List.mem_cons_self _ _)))
  exact hclaim afterDelete3 (Relation.ReflTransGen.single hstep) juice5 hmem rfl

/-- C1, amended: in every store state reachable from the seed without any
delete, the id `createJuice` would assign — the string of the current
juice count plus one — is not the id of any juice already present. -/
theorem createJuice_id_fresh_of_no_delete (s : List Juice) (h : ReachableND s) :
    ∀ j ∈ s, j.id ≠ Nat.repr (s.length + 1) :=
  fresh_of_IdInv (reachableND_IdInv s h)

/-- C1, witness: the amended theorem applied to the seed state. -/
theorem createJuice_id_fresh_witness :
    juice1.id ≠ Nat.repr (seedJuices.length + 1) :=
  createJuice_id_fresh_of_no_delete seedJuices Relation.ReflTransGen.refl juice1
    (List.mem_cons_self _ _)

/-! ### C2: createJuice defaults -/

/-- The record `POST /api/juices` builds on success (server.js lines
202-210); definitionally the one inside `restPostJuices`. -/
def restNewJuice (juices : List Juice) (body : JuiceBody) : Juice :=
  { id := Nat.repr (juices.length + 1)
    name := body.name.getD ""
    description := some (orStr body.description "")
    price := body.price.getD 0
    category := some (orStr body.category "Fruit")
    inStock := body.inStock.getD true
    imageUrl := some (orStr body.imageUrl "./images/first.jpg") }

/-- A GraphQL create input with every optional field omitted. -/
def omittingInput : JuiceInput :=
  { name := "Mango Tango", description := none, price := 6.49, category := none,
    inStock := none, imageUrl := none }

/-- C2, counterexample: the GraphQL `createJuice` mutation does not apply
the documented defaults — with every optional field omitted the stored
record keeps them absent instead of `""` / `"Fruit"` / the placeholder
path. -/
theorem createJuice_gql_defaults_counterexample :
    (gqlCreateJuice seedJuices omittingInput).1.description ≠ some "" ∧
    (gqlCreateJuice seedJuices omittingInput).1.category ≠ some "Fruit" ∧
    (gqlCreateJuice seedJuices omittingInput).1.imageUrl ≠ some "./images/first.jpg" := by
  refine ⟨fun h => ?_, fun h => ?_, fun h => ?_⟩ <;> exact nomatch h

/-- C2, amended: REST `POST /api/juices` assigns the sequential id,
defaults every omitted optional field, appends and returns the record;
the GraphQL `createJuice` mutation assigns the same id, appends and
returns the record, and defaults only `inStock` — omitted `description`,
`category` and `imageUrl` are stored absent. -/
theorem createJuice_defaults_amended :
    (∀ (juices : List Juice) (input : JuiceInput),
      ∃ nj, gqlCreateJuice juices input = (nj, juices ++ [nj]) ∧
        nj.id = Nat.repr (juices.length + 1) ∧ nj.name = input.name ∧
        nj.price = input.price ∧ nj.description = input.description ∧
        nj.category = input.category ∧ nj.imageUrl = input.imageUrl ∧
        nj.inStock = input.inStock.getD true)
    ∧
    (∀ (juices : List Juice) (body : JuiceBody),
      truthyStr body.name = true → truthyNum body.price = true →
      ∃ nj, restPostJuices juices body = (Resp.ok 201 nj, juices ++ [nj]) ∧
        nj.id = Nat.repr (juices.length + 1) ∧ nj.name = body.name.getD "" ∧
        nj.price = body.price.getD 0 ∧
        (body.description = none → nj.description = some "") ∧
        (body.category = none → nj.category = some "Fruit") ∧
        (body.inStock = none → nj.inStock = true) ∧
        (body.imageUrl = none → nj.imageUrl = some "./images/first.jpg")) := by
  constructor
  · intro juices input
    exact ⟨_, rfl, rfl, rfl, rfl, rfl, rfl, rfl, rfl⟩
  · intro juices body h1 h2
    have hc : (!truthyStr body.name || !truthyNum body.price) = false := by
      rw [h1, h2]
      rfl
    refine ⟨restNewJuice juices body, ?_, rfl, rfl, rfl, ?_, ?_, ?_, ?_⟩
    · simp only [restPostJuices, hc, Bool.false_eq_true, if_false]
      rfl
    · intro h
      simp [restNewJuice, orStr, truthyStr, h]
    · intro h
      simp [restNewJuice, orStr, truthyStr, h]
    · intro h
      simp [restNewJuice, h]
    · intro h
      simp [restNewJuice, orStr, truthyStr, h]

/-- A REST create body with every optional field omitted. -/
def minimalBody : JuiceBody :=
  { name := some "Kiwi Crush", description := none, price := some 3, category := none,
    inStock := none, imageUrl := none }

/-- C2, witness: the amended theorem's REST half applied to a concrete
body with all optional fields omitted. -/
theorem createJuice_defaults_witness :
    ∃ nj, restPostJuices seedJuices minimalBody = (Resp.ok 201 nj, seedJuices ++ [nj]) ∧
      nj.id = Nat.repr (seedJuices.length + 1) ∧ nj.name = minimalBody.name.getD "" ∧
      nj.price = minimalBody.price.getD 0 ∧
      (minimalBody.description = none → nj.description = some "") ∧
      (minimalBody.category = none → nj.category = some "Fruit") ∧
      (minimalBody.inStock = none → nj.inStock = true) ∧
      (minimalBody.imageUrl = none → nj.imageUrl = some "./images/first.jpg") :=
  createJuice_defaults_amended.2 seedJuices minimalBody rfl (by norm_num [truthyNum, minimalBody])

/-! ### C6: REST POST /api/juices validation -/

/-- C6: `POST /api/juices` answers 400 exactly when `name` or `price` is
falsy — in particular a zero price is rejected — and otherwise creates
the record, appends it and answers 201. -/
theorem restPostJuices_validation :
    ∀ (juices : List Juice) (body : JuiceBody),
      ((truthyStr body.name = false ∨ truthyNum body.price = false) →
        restPostJuices juices body =
          (Resp.err 400 "Name and price are required", juices)) ∧
      (body.price = some 0 →
        restPostJuices juices body =
          (Resp.err 400 "Name and price are required", juices)) ∧
      (truthyStr body.name = true → truthyNum body.price = true →
        ∃ nj, restPostJuices juices body = (Resp.ok 201 nj, juices ++ [nj])) := by
  intro juices body
  refine ⟨?_, ?_, ?_⟩
  · intro h
    have hc : (!truthyStr body.name || !truthyNum body.price) = true := by
      rcases h with h | h <;> rw [h] <;> simp
    simp only [restPostJuices, hc, if_true]
  · intro h
    have hp : truthyNum body.price = false := by
      rw [h]
      simp [truthyNum]
    have hc : (!truthyStr body.name || !truthyNum body.price) = true := by
      rw [hp]
      simp
    simp only [restPostJuices, hc, if_true]
  · intro h1 h2
    have hc : (!truthyStr body.name || !truthyNum body.price) = false := by
      rw [h1, h2]
      rfl
    exact ⟨restNewJuice juices body,
      by simp only [restPostJuices, hc, Bool.false_eq_true, if_false]; rfl⟩

/-- A REST create body whose price is zero. -/
def zeroPriceBody : JuiceBody :=
  { name := some "Free Juice", description := none, price := some 0, category := none,
    inStock := none, imageUrl := none }

/-- C6, witness: a zero price is rejected with 400 on the seed store. -/
theorem restPostJuices_validation_witness :
    restPostJuices seedJuices zeroPriceBody =
      (Resp.err 400 "Name and price are required", seedJuices) :=
  (restPostJuices_validation seedJuices zeroPriceBody).2.1 rfl

/-! ### C5: deleteJuice -/

/-- C5: `deleteJuice` succeeds exactly when the id is present (a success
removes one record, shrinking the store by exactly one), fails with
Not-Found exactly when it is absent, is consistently Not-Found when
repeated after a successful delete (on a store without duplicate ids),
and the REST handler maps the two outcomes to 404 / 200. -/
theorem deleteJuice_spec :
    ∀ (juices : List Juice) (id : String),
      ((∃ j ∈ juices, j.id = id) →
        ∃ js2, deleteJuice juices id = some js2 ∧ js2.length + 1 = juices.length) ∧
      (deleteJuice juices id = none ↔ ∀ j ∈ juices, j.id ≠ id) ∧
      (∀ js2, deleteJuice juices id = some js2 → (idsOf juices).Nodup →
        deleteJuice js2 id = none) ∧
      (deleteJuice juices id = none →
        restDeleteJuice juices id = (Resp.err 404 "Juice not found", juices)) ∧
      (∀ js2, deleteJuice juices id = some js2 →
        restDeleteJuice juices id = (Resp.ok 200 "Juice deleted successfully", js2)) := by
  intro juices id
  refine ⟨?_, ?_, ?_, ?_, ?_⟩
  · rintro ⟨j, hj, hid⟩
    have hsome := findAndRemove_isSome (fun j => j.id == id) juices j hj
      (by simp [hid])
    obtain ⟨js2, hjs2⟩ := Option.isSome_iff_exists.mp hsome
    obtain ⟨pre, x, suf, hl, _, _, hl2⟩ :=
      findAndRemove_eq_some _ juices js2 hjs2
    exact ⟨js2, hjs2, by
      subst hl hl2
      simp only [List.length_append, List.length_cons]
      omega⟩
  · unfold deleteJuice
    rw [findAndRemove_eq_none_iff]
    constructor
    · intro h j hj
      simpa using h j hj
    · intro h j hj
      simpa using h j hj
  · intro js2 hdel hnd
    obtain ⟨pre, x, suf, hl, hpre, hx, hl2⟩ :=
      findAndRemove_eq_some _ juices js2 hdel
    subst hl hl2
    have hxid : x.id = id := by simpa using hx
    have hnd2 : x.id ∉ (suf.map (fun j => j.id)) := by
      simp only [idsOf, List.map_append, List.map_cons] at hnd
      exact (List.nodup_cons.mp (List.Nodup.of_append_right hnd)).1
    unfold deleteJuice
    rw [findAndRemove_eq_none_iff]
    intro j hj
    rcases List.mem_append.mp hj with hjp | hjs
    · exact hpre j hjp
    · have : j.id ≠ x.id := fun he => hnd2 (he ▸ List.mem_map_of_mem _ hjs)
      simpa [hxid] using this
  · intro h
    simp [restDeleteJuice, h]
  · intro js2 h
    simp [restDeleteJuice, h]

/-- C5, witness: deleting the present id `"3"` from the seed succeeds and
shrinks the store by one. -/
theorem deleteJuice_spec_witness :
    ∃ js2, deleteJuice seedJuices "3" = some js2 ∧ js2.length + 1 = seedJuices.length :=
  (deleteJuice_spec seedJuices "3").1
    ⟨juice3, List.mem_cons_of_mem _ (List.mem_cons_of_mem _ (List.mem_cons_self _ _)), rfl⟩

/-! ### C7: REST PUT /api/juices/:id -/

/-- C7: `PUT /api/juices/:id` answers 404 when the id is absent;
otherwise it replaces each stored field by the incoming value only when
that value is truthy (`inStock` whenever it is defined; a zero price in
particular is ignored) and answers 200 with the updated record, stored in
place. -/
theorem restPutJuice_spec :
    ∀ (juices : List Juice) (id : String) (body : JuiceBody),
      ((∀ j ∈ juices, j.id ≠ id) →
        restPutJuice juices id body = (Resp.err 404 "Juice not found", juices)) ∧
      ((∃ j ∈ juices, j.id = id) →
        ∃ pre x suf, juices = pre ++ x :: suf ∧ (∀ y ∈ pre, y.id ≠ id) ∧ x.id = id ∧
          restPutJuice juices id body =
            (Resp.ok 200 (putMergeJuice x body), pre ++ putMergeJuice x body :: suf)) ∧
      (∀ j : Juice,
        (putMergeJuice j body).id = j.id ∧
        (putMergeJuice j body).name =
          (if truthyStr body.name then body.name.getD "" else j.name) ∧
        (putMergeJuice j body).description =
          (if truthyStr body.description then body.description else j.description) ∧
        (putMergeJuice j body).price =
          (if truthyNum body.price then body.price.getD 0 else j.price) ∧
        (putMergeJuice j body).category =
          (if truthyStr body.category then body.category else j.category) ∧
        (putMergeJuice j body).inStock = body.inStock.getD j.inStock ∧
        (putMergeJuice j body).imageUrl =
          (if truthyStr body.imageUrl then body.imageUrl else j.imageUrl)) ∧
      (body.price = some 0 → ∀ j : Juice, (putMergeJuice j body).price = j.price) := by
  intro juices id body
  refine ⟨?_, ?_, fun j => ⟨rfl, rfl, rfl, rfl, rfl, rfl, rfl⟩, ?_⟩
  · intro h
    have hnone : findAndUpdate (fun j => j.id == id) (fun j => putMergeJuice j body) juices = none := by
      rw [findAndUpdate_eq_none_iff]
      intro a ha
      simpa using h a ha
    simp [restPutJuice, hnone]
  · rintro ⟨j, hj, hid⟩
    have hsome := findAndUpdate_isSome (fun j => j.id == id)
      (fun j => putMergeJuice j body) juices j hj (by simp [hid])
    obtain ⟨⟨j2, s2⟩, hfa⟩ := Option.isSome_iff_exists.mp hsome
    obtain ⟨pre, x, suf, hl, hpre, hx, ha2, hl2⟩ :=
      findAndUpdate_eq_some _ _ juices j2 s2 hfa
    refine ⟨pre, x, suf, hl, fun y hy => by simpa using hpre y hy, by simpa using hx, ?_⟩
    rw [restPutJuice, hfa, ha2, hl2]
  · intro h j
    have hp : truthyNum body.price = false := by
      rw [h]
      simp [truthyNum]
    show (if truthyNum body.price then body.price.getD 0 else j.price) = j.price
    rw [hp]
    simp

/-- C7, witness: updating present id `"2"` with a zero-price body answers
200 and leaves the stored price unchanged. -/
theorem restPutJuice_spec_witness :
    ∃ pre x suf, seedJuices = pre ++ x :: suf ∧ (∀ y ∈ pre, y.id ≠ "2") ∧ x.id = "2" ∧
      restPutJuice seedJuices "2" zeroPriceBody =
        (Resp.ok 200 (putMergeJuice x zeroPriceBody),
          pre ++ putMergeJuice x zeroPriceBody :: suf) :=
  (restPutJuice_spec seedJuices "2" zeroPriceBody).2.1
    ⟨juice2, List.mem_cons_of_mem _ (List.mem_cons_self _ _), rfl⟩

/-! ### C8: Order.juices resolver -/

/-- C8: the `Order.juices` resolver maps `order.items` through the juice
lookup in item order, silently discarding ids that resolve to no
currently-present juice. -/
theorem resolveOrderJuices_spec :
    ∀ (juices : List Juice) (order : Order),
      resolveOrderJuices juices order =
        order.items.filterMap (fun itemId => getJuice juices itemId) ∧
      ∀ j : Juice, (j ∈ resolveOrderJuices juices order ↔
        ∃ itemId ∈ order.items, getJuice juices itemId = some j) := by
  intro juices order
  have h1 : resolveOrderJuices juices order =
      order.items.filterMap (fun itemId => getJuice juices itemId) := by
    unfold resolveOrderJuices
    rw [List.filterMap_map]
    rfl
  refine ⟨h1, fun j => ?_⟩
  rw [h1, List.mem_filterMap]

/-! ### C9: updateOrderStatus -/

/-- C9: `updateOrderStatus` fails with Not-Found exactly when the id is
absent; on success it stores the supplied status string verbatim (no
validation) in the matched order, and a subsequent `getOrder` on the
updated store returns that order with the new status. -/
theorem updateOrderStatus_spec :
    ∀ (orders : List Order) (id status : String),
      (updateOrderStatus orders id status = none ↔ ∀ o ∈ orders, o.id ≠ id) ∧
      ((∃ o ∈ orders, o.id = id) → (updateOrderStatus orders id status).isSome) ∧
      (∀ o2 os2, updateOrderStatus orders id status = some (o2, os2) →
        o2.status = status ∧ o2.id = id ∧ getOrder os2 id = some o2) := by
  intro orders id status
  refine ⟨?_, ?_, ?_⟩
  · unfold updateOrderStatus
    rw [findAndUpdate_eq_none_iff]
    constructor
    · intro h o ho
      simpa using h o ho
    · intro h o ho
      simpa using h o ho
  · rintro ⟨o, ho, hid⟩
    exact findAndUpdate_isSome _ _ orders o ho (by simp [hid])
  · intro o2 os2 h
    obtain ⟨pre, x, suf, hl, hpre, hx, ha2, hl2⟩ :=
      findAndUpdate_eq_some _ _ orders o2 os2 h
    have hxid : x.id = id := by simpa using hx
    have ho2 : o2 = { x with status := status } := ha2
    refine ⟨by rw [ho2], by rw [ho2]; exact hxid, ?_⟩
    subst hl2
    unfold getOrder
    rw [List.find?_append]
    have hprenone : pre.find? (fun o => o.id == id) = none := by
      rw [List.find?_eq_none]
      intro a ha
      simp [hpre a ha]
    rw [hprenone, Option.none_or, List.find?_cons_of_pos _ (by simp [hxid])]
    rw [ha2]

/-- Seed order 1 after its status is set to "shipped". -/
def shippedOrder1 : Order := { order1 with status := "shipped" }

/-- C9, witness: setting seed order `"1"` to `"shipped"` succeeds, stores
the string verbatim and is visible through `getOrder`. -/
theorem updateOrderStatus_spec_witness :
    shippedOrder1.status = "shipped" ∧ shippedOrder1.id = "1" ∧
      getOrder [shippedOrder1, order2] "1" = some shippedOrder1 :=
  (updateOrderStatus_spec seedOrders "1" "shipped").2.2 shippedOrder1
    [shippedOrder1, order2] rfl

/-! ### C10: empty items list accepted -/

/-- C10: with a present customer name and an empty items list, both order
creation paths accept the request: REST answers 201 and both append an
order with total 0 and status "pending". -/
theorem createOrder_empty_items :
    ∀ (juices : List Juice) (orders : List Order) (cn now : String),
      cn ≠ "" →
      restPostOrders juices orders ⟨some cn, some []⟩ now =
        (Resp.ok 201 ⟨Nat.repr (orders.length + 1), cn, [], 0, "pending", now⟩,
          orders ++ [⟨Nat.repr (orders.length + 1), cn, [], 0, "pending", now⟩]) ∧
      gqlCreateOrder juices orders ⟨cn, []⟩ now =
        (⟨Nat.repr (orders.length + 1), cn, [], 0, "pending", now⟩,
          orders ++ [⟨Nat.repr (orders.length + 1), cn, [], 0, "pending", now⟩]) := by
  intro juices orders cn now h
  have ht : truthyStr (some cn) = true := by
    simp [truthyStr, h]
  have hc : (!truthyStr (some cn) || (some ([] : List String)).isNone) = false := by
    rw [ht]
    rfl
  constructor
  · simp only [restPostOrders, hc, Bool.false_eq_true, if_false]
    rfl
  · rfl

/-- C10, witness: the empty-items acceptance at a concrete request. -/
theorem createOrder_empty_items_witness :
    restPostOrders seedJuices seedOrders ⟨some "Test", some []⟩ "2024-02-01" =
      (Resp.ok 201 ⟨Nat.repr (seedOrders.length + 1), "Test", [], 0, "pending", "2024-02-01"⟩,
        seedOrders ++ [⟨Nat.repr (seedOrders.length + 1), "Test", [], 0, "pending", "2024-02-01"⟩]) :=
  (createOrder_empty_items seedJuices seedOrders "Test" "2024-02-01" (by simp)).1

/-! ### C3: createOrder total -/

/-- The price an item id contributes to a total: the current price of the
juice stored under it, or 0 when the lookup misses. -/
def priceOrZero (juices : List Juice) (itemId : String) : ℚ :=
  match getJuice juices itemId with
  | some j => j.price
  | none => 0

theorem orderTotal_eq_sum (juices : List Juice) (items : List String) :
    orderTotal juices items = (items.map (priceOrZero juices)).sum := by
  suffices h : ∀ (l : List String) (init : ℚ),
      l.foldl (fun sum itemId =>
        sum + (match getJuice juices itemId with | some j => j.price | none => 0)) init
        = init + (l.map (priceOrZero juices)).sum by
    simpa [orderTotal] using h items 0
  intro l
  induction l with
  | nil =>
    intro init
    simp
  | cons i rest ih =>
    intro init
    simp only [List.foldl_cons, List.map_cons, List.sum_cons, ih, priceOrZero]
    ring

/-- C3: `createOrder` totals the current prices of the resolvable item
ids (0 for unresolvable ones), sets status "pending", assigns the
sequential id, appends and returns the order — on both interfaces — and
on the seed data the order for items ["1","3"] totals 11.98. -/
theorem createOrder_spec :
    (∀ (juices : List Juice) (orders : List Order) (input : OrderInput) (now : String),
      ∃ o, gqlCreateOrder juices orders input now = (o, orders ++ [o]) ∧
        o.id = Nat.repr (orders.length + 1) ∧ o.customerName = input.customerName ∧
        o.items = input.items ∧ o.status = "pending" ∧ o.createdAt = now ∧
        o.total = (input.items.map (priceOrZero juices)).sum) ∧
    (∀ (juices : List Juice) (orders : List Order) (cn : String) (items : List String)
        (now : String), cn ≠ "" →
      ∃ o, restPostOrders juices orders ⟨some cn, some items⟩ now =
          (Resp.ok 201 o, orders ++ [o]) ∧
        o.total = (items.map (priceOrZero juices)).sum ∧ o.status = "pending") ∧
    (∀ now : String,
      (gqlCreateOrder seedJuices seedOrders ⟨"Test", ["1", "3"]⟩ now).1.total = 11.98 ∧
      (gqlCreateOrder seedJuices seedOrders ⟨"Test", ["1", "3"]⟩ now).1.status = "pending") := by
  refine ⟨?_, ?_, ?_⟩
  · intro juices orders input now
    exact ⟨_, rfl, rfl, rfl, rfl, rfl, rfl, orderTotal_eq_sum juices input.items⟩
  · intro juices orders cn items now h
    have ht : truthyStr (some cn) = true := by
      simp [truthyStr, h]
    have hc : (!truthyStr (some cn) || (some items).isNone) = false := by
      rw [ht]
      rfl
    refine ⟨⟨Nat.repr (orders.length + 1), cn, items, orderTotal juices items,
      "pending", now⟩, ?_, orderTotal_eq_sum juices items, rfl⟩
    simp only [restPostOrders, hc, Bool.false_eq_true, if_false]
    rfl
  · intro now
    refine ⟨?_, rfl⟩
    have hred : (gqlCreateOrder seedJuices seedOrders ⟨"Test", ["1", "3"]⟩ now).1.total
        = 0 + (4.99 : ℚ) + 6.99 := rfl
    rw [hred]
    norm_num

/-- C3, witness: the REST half of the createOrder theorem at a concrete
request whose second item id is unresolvable. -/
theorem createOrder_spec_witness :
    ∃ o, restPostOrders seedJuices seedOrders ⟨some "Ann", some ["2", "99"]⟩ "2024-02-02" =
        (Resp.ok 201 o, seedOrders ++ [o]) ∧
      o.total = ((["2", "99"] : List String).map (priceOrZero seedJuices)).sum ∧
      o.status = "pending" :=
  createOrder_spec.2.1 seedJuices seedOrders "Ann" ["2", "99"] "2024-02-02" (by simp)

/-! ### C4: searchJuices -/

/-- The match predicate the spec describes for one juice: the query
occurs case-insensitively in the name, the description or the category
(absent fields read as empty). -/
def matchesB (query : String) (j : Juice) : Bool :=
  strIncludes j.name.toLower query.toLower ||
  strIncludes (j.description.getD "").toLower query.toLower ||
  strIncludes (j.category.getD "").toLower query.toLower

theorem juiceMatchesJS_of_wf (query : String) (j : Juice) (d c : String)
    (hd : j.description = some d) (hc : j.category = some c) :
    juiceMatchesJS query.toLower j = some (matchesB query j) := by
  unfold juiceMatchesJS matchesB
  rw [hd, hc]
  by_cases h1 : strIncludes j.name.toLower query.toLower
  · simp [h1]
  · by_cases h2 : strIncludes d.toLower query.toLower
    · simp [h1, h2]
    · simp [h1, h2]

theorem filterJS_eq (query : String) :
    ∀ juices : List Juice,
      (∀ j ∈ juices, j.description.isSome ∧ j.category.isSome) →
      filterJS (juiceMatchesJS query.toLower) juices =
        some (juices.filter (matchesB query)) := by
  intro juices
  induction juices with
  | nil => intro _; rfl
  | cons j rest ih =>
    intro hwf
    obtain ⟨hd, hc⟩ := hwf j (List.mem_cons_self _ _)
    obtain ⟨d, hdd⟩ := Option.isSome_iff_exists.mp hd
    obtain ⟨c, hcc⟩ := Option.isSome_iff_exists.mp hc
    have hrest := ih (fun a ha => hwf a (List.mem_cons_of_mem _ ha))
    simp only [filterJS, juiceMatchesJS_of_wf query j d c hdd hcc, hrest,
      List.filter_cons]
    by_cases hm : matchesB query j = true
    · simp [hm]
    · simp [hm]

theorem strIncludes_empty_right (s : String) : strIncludes s "" = true :=
  occursIn_nil_left s.toList

/-- C4: on a store whose juices carry their `description` and `category`
fields, `searchJuices` returns exactly the juices matched by the
case-insensitive substring test on name, description or category (a
match in any field qualifies), preserving store order; the test agrees
with the substring relation, and the empty query matches every juice on
any store without error. -/
theorem searchJuices_spec :
    (∀ (juices : List Juice) (query : String),
      (∀ j ∈ juices, j.description.isSome ∧ j.category.isSome) →
      searchJuices juices query = some (juices.filter (matchesB query))) ∧
    (∀ (query : String) (j : Juice),
      matchesB query j = true ↔
        (SubstringCI query j.name ∨ SubstringCI query (j.description.getD "") ∨
          SubstringCI query (j.category.getD ""))) ∧
    (∀ juices : List Juice, searchJuices juices "" = some juices) := by
  refine ⟨?_, ?_, ?_⟩
  · intro juices query hwf
    exact filterJS_eq query juices hwf
  · intro query j
    simp [matchesB, Bool.or_eq_true, strIncludes_toLower_iff, or_assoc]
  · intro juices
    unfold searchJuices
    induction juices with
    | nil => rfl
    | cons j rest ih =>
      have hmatch : juiceMatchesJS ("" : String).toLower j = some true := by
        have hq : ("" : String).toLower = "" := by
          show ("" : String).map Char.toLower = ""
          rw [String.map_eq]
          rfl
        unfold juiceMatchesJS
        rw [hq, if_pos (strIncludes_empty_right j.name.toLower)]
      simp only [filterJS, hmatch, ih]
      rfl

/-- C4, witness: the filter characterization applied to the seed store
and the query "berry". -/
theorem searchJuices_spec_witness :
    searchJuices seedJuices "berry" = some (seedJuices.filter (matchesB "berry")) :=
  searchJuices_spec.1 seedJuices "berry" (by decide)

end FreshJuice
